import Mathlib

/-!
Shallow embedding of the LV2 metronome example plugin
(`plugins/eg-metro.lv2/metro.c`).

Modelling conventions:
* C `float`/`double` arithmetic is idealised as exact rational arithmetic
  (`ℚ`); conversions of nonnegative floating values to `uint32_t` are
  written `(⌊x⌋).toNat` (truncation; a negative or out-of-range float to
  unsigned conversion is undefined behaviour in C).
* `uint32_t` counters are `Nat`; where the source can overflow
  (the `++self->elapsed_len` increment and the `elapsed_len - attack_len`
  subtraction) the wrap-around is written explicitly as `% 2 ^ 32`.
* The output port is a buffer modelled as a function `Nat → ℚ`; every
  rendering operation additionally returns the list of buffer indices it
  wrote, in order, so that write coverage can be stated.
* The libm `sin` used to fill the wave table is external to the repository
  and is passed in as an abstract function `sinq`; `m_pi` is the exact
  value of the IEEE-754 double constant `M_PI`.
-/

/-- The three envelope states of the plugin (`State` enum, metro.c). -/
inductive State where
  | attack
  | decay
  | off
deriving DecidableEq

/-- Attack time in seconds (`attack_s`, metro.c). -/
def attack_s : ℚ := 5 / 1000

/-- Decay time in seconds (`decay_s`, metro.c). -/
def decay_s : ℚ := 75 / 1000

/-- The exact rational value of the IEEE-754 double constant `M_PI`. -/
def m_pi : ℚ := 884279719003555 / 281474976710656

/-- The instance state of the plugin (`Metro` struct, metro.c), restricted
to the fields the rendering logic touches (the URID cache, logger and port
pointers of the C struct are host-interface plumbing). -/
structure Metro where
  rate : ℚ
  bpm : ℚ
  speed : ℚ
  elapsed_len : Nat
  wave_offset : Nat
  state : State
  wave : List ℚ
  wave_len : Nat
  attack_len : Nat
  decay_len : Nat
deriving DecidableEq

/-- A decoded `time:Position` object: the three optional atoms the plugin
reads (`time_barBeat`, `time_beatsPerMinute`, `time_speed`).  A field whose
atom is absent or not an `atom_Float` is `none`. -/
structure PosMsg where
  beat : Option ℚ
  bpm : Option ℚ
  speed : Option ℚ

/-- One event of the control sequence fed to `run`: its frame time and,
when its body is an object of type `time_Position`, the decoded position
message (`none` models any other event body, which `run` skips). -/
structure Event where
  time : Nat
  msg : Option PosMsg

/-- The successfully constructed instance (`instantiate`, metro.c lines
146-204).  `calloc` zero-initialises the struct, so `speed`, `elapsed_len`
and `wave_offset` start at 0; `bpm`, `state`, the envelope lengths and the
wave table are then assigned as in the source.  `sinq` stands for libm's
`sin`. -/
def mkMetro (sinq : ℚ → ℚ) (rate : ℚ) : Metro :=
  { rate := rate
    bpm := 120
    speed := 0
    elapsed_len := 0
    wave_offset := 0
    state := State.off
    wave := (List.range (⌊rate / (440 * 2)⌋).toNat).map
      (fun (i : ℕ) => sinq ((i : ℚ) * 2 * m_pi * (440 * 2) / rate) * (1 / 2))
    wave_len := (⌊rate / (440 * 2)⌋).toNat
    attack_len := (⌊attack_s * rate⌋).toNat
    decay_len := (⌊decay_s * rate⌋).toNat }

/-- `instantiate` (metro.c lines 146-204): returns `none` when the
mandatory URID-map feature is missing (`hasMap = false` abstracts the
host's feature array); allocation is assumed to succeed.  The sample rate
is never inspected for validity. -/
def instantiate (sinq : ℚ → ℚ) (hasMap : Bool) (rate : ℚ) : Option Metro :=
  if hasMap then some (mkMetro sinq rate) else none

/-- `activate` (metro.c lines 130-138): resets the render cursor and
envelope completely. -/
def activate (m : Metro) : Metro :=
  { m with elapsed_len := 0, wave_offset := 0, state := State.off }

/-- The `frames_per_beat` computation at the top of `play` (metro.c line
220): `(uint32_t)(60.0f / self->bpm * self->rate)`, truncation of the
floating value to `uint32_t`. -/
def framesPerBeat (m : Metro) : Nat :=
  (⌊60 / m.bpm * m.rate⌋).toNat

/-- One iteration of the rendering loop of `play` (metro.c lines 227-258):
the output sample for the current state (in the decay branch the source
assigns `output[i]` twice; only the final value is observable, and the
`elapsed_len - attack_len` subtraction is `uint32_t` arithmetic), the
envelope transition checked against the pre-increment `elapsed_len`, the
unconditional wave-offset advance, and the post-increment beat-boundary
reset. -/
def playStep (fpb : Nat) (m : Metro) : Metro × ℚ :=
  let out : ℚ :=
    match m.state with
    | State.attack =>
        m.wave.getD m.wave_offset 0 * (m.elapsed_len : ℚ) / (m.attack_len : ℚ)
    | State.decay =>
        m.wave.getD m.wave_offset 0 *
          (1 - (((m.elapsed_len + 2 ^ 32 - m.attack_len) % 2 ^ 32 : Nat) : ℚ) /
            (m.decay_len : ℚ))
    | State.off => 0
  let st1 : State :=
    match m.state with
    | State.attack =>
        if m.attack_len ≤ m.elapsed_len then State.decay else State.attack
    | State.decay =>
        if m.attack_len + m.decay_len ≤ m.elapsed_len then State.off else State.decay
    | State.off => State.off
  let wo := (m.wave_offset + 1) % m.wave_len
  let e := (m.elapsed_len + 1) % 2 ^ 32
  if e = fpb then
    ({ m with state := State.attack, elapsed_len := 0, wave_offset := wo }, out)
  else
    ({ m with state := st1, elapsed_len := e, wave_offset := wo }, out)

/-- The rendering loop of `play` unrolled over `n` frames starting at
buffer index `i`: returns the final instance state, the updated buffer and
the list of indices written (in order). -/
def playFrom (fpb : Nat) : Metro → (Nat → ℚ) → Nat → Nat → Metro × (Nat → ℚ) × List Nat
  | m, out, _, 0 => (m, out, [])
  | m, out, i, n + 1 =>
    let s := playStep fpb m
    let r := playFrom fpb s.1 (fun j => if j = i then s.2 else out j) (i + 1) n
    (r.1, r.2.1, i :: r.2.2)

/-- `play` (metro.c lines 216-260).  When `speed == 0` the source executes
`memset(output, 0, (end - begin) * sizeof(float))`: it zeroes the buffer
indices `[0, e - b)` — counted from the start of the buffer, not from
`b` — and returns with the state untouched.  Otherwise it renders the
frames `[b, e)` with `playStep`, using a `frames_per_beat` computed once
from the current bpm.  (`e - b` is `uint32_t` subtraction; callers always
pass `b ≤ e`.) -/
def play (m : Metro) (out : Nat → ℚ) (b e : Nat) : Metro × (Nat → ℚ) × List Nat :=
  if m.speed = 0 then
    (m, fun i => if i < e - b then 0 else out i, List.range (e - b))
  else
    playFrom (framesPerBeat m) m out b (e - b)

/-- `update_position` (metro.c lines 266-307): applies the optional fields
of a `time:Position` object in source order — tempo, then speed, then beat
position.  A present beat position is a hard resync: `elapsed_len` is set
from the fractional beat and the frames-per-beat derived from the
(possibly just updated) bpm, and the state is re-derived from the new
`elapsed_len`; the wave offset is not touched. -/
def update_position (m : Metro) (msg : PosMsg) : Metro :=
  let m1 := match msg.bpm with
    | some b => { m with bpm := b }
    | none => m
  let m2 := match msg.speed with
    | some s => { m1 with speed := s }
    | none => m1
  match msg.beat with
  | some bar_beats =>
    let fpb : ℚ := 60 / m2.bpm * m2.rate
    let beat_beats : ℚ := bar_beats - (⌊bar_beats⌋ : ℚ)
    let el : Nat := (⌊beat_beats * fpb⌋).toNat
    let st : State :=
      if el < m2.attack_len then State.attack
      else if el < m2.attack_len + m2.decay_len then State.decay
      else State.off
    { m2 with elapsed_len := el, state := st }
  | none => m2

/-- The event loop of `run` (metro.c lines 309-342), threading the
`last_t` cursor: each event first renders `[last_t, ev.time)`, then (for a
`time:Position` object) applies `update_position`, and `last_t` advances
to the event time; after the last event the tail `[last_t, n)` is
rendered. -/
def runLoop : Metro → (Nat → ℚ) → Nat → List Event → Nat → Metro × (Nat → ℚ) × List Nat
  | m, out, last_t, [], n => play m out last_t n
  | m, out, last_t, ev :: evs, n =>
    let p := play m out last_t ev.time
    let m1 := match ev.msg with
      | some pos => update_position p.1 pos
      | none => p.1
    let r := runLoop m1 p.2.1 ev.time evs n
    (r.1, r.2.1, p.2.2 ++ r.2.2)

/-- `run` (metro.c lines 309-342): processes one block of `sample_count`
frames with the (time-ordered) decoded control events. -/
def run (m : Metro) (out : Nat → ℚ) (events : List Event) (sample_count : Nat) :
    Metro × (Nat → ℚ) × List Nat :=
  runLoop m out 0 events sample_count

/-- A stopped instance (`speed = 0`) with the envelope lengths of a
48 kHz sample rate, used as a concrete test vector. -/
def stopped48k : Metro :=
  { rate := 48000
    bpm := 120
    speed := 0
    elapsed_len := 0
    wave_offset := 0
    state := State.off
    wave := [0, 0]
    wave_len := 2
    attack_len := 240
    decay_len := 3600 }

/-- A playing instance (`speed = 1`) at the parameters of the resync
scenario of the spec: 48 kHz, 120 bpm, `attack_len = 240`,
`decay_len = 3600`. -/
def playing48k : Metro :=
  { rate := 48000
    bpm := 120
    speed := 1
    elapsed_len := 0
    wave_offset := 0
    state := State.off
    wave := [0, 0]
    wave_len := 2
    attack_len := 240
    decay_len := 3600 }

/-- A tiny playing instance whose `frames_per_beat` is 3 (rate 3, 60 bpm),
small enough for concrete evaluation. -/
def tiny3 : Metro :=
  { rate := 3
    bpm := 60
    speed := 1
    elapsed_len := 0
    wave_offset := 0
    state := State.off
    wave := [0, 0]
    wave_len := 2
    attack_len := 1
    decay_len := 1 }

/-- `tiny3` after an over-long resync: `elapsed_len` already past
`frames_per_beat`. -/
def tiny3Late : Metro :=
  { tiny3 with elapsed_len := 10 }

/-- A decay-phase snapshot of `playing48k`, 300 frames into the beat. -/
def decay48k : Metro :=
  { playing48k with state := State.decay, elapsed_len := 300 }

/-- The resync message of the spec scenario: `barBeatPosition = 1.5`,
no tempo, no speed. -/
def beatMsg : PosMsg :=
  { beat := some (3 / 2), bpm := none, speed := none }

lemma playStep_wave_len (fpb : Nat) (m : Metro) :
    (playStep fpb m).1.wave_len = m.wave_len := by
  simp only [playStep]
  split <;> rfl

lemma playStep_wave_offset (fpb : Nat) (m : Metro) :
    (playStep fpb m).1.wave_offset = (m.wave_offset + 1) % m.wave_len := by
  simp only [playStep]
  split <;> rfl

lemma playStep_elapsed_of_ne (fpb : Nat) (m : Metro)
    (h : (m.elapsed_len + 1) % 2 ^ 32 ≠ fpb) :
    (playStep fpb m).1.elapsed_len = (m.elapsed_len + 1) % 2 ^ 32 := by
  simp only [playStep]
  rw [if_neg h]

lemma playStep_reset (fpb : Nat) (m : Metro)
    (h : (m.elapsed_len + 1) % 2 ^ 32 = fpb) :
    (playStep fpb m).1.elapsed_len = 0 ∧ (playStep fpb m).1.state = State.attack := by
  simp only [playStep]
  rw [if_pos h]
  exact ⟨rfl, rfl⟩

lemma playStep_state_off (fpb : Nat) (m : Metro) (hoff : m.state = State.off)
    (h : (m.elapsed_len + 1) % 2 ^ 32 ≠ fpb) :
    (playStep fpb m).1.state = State.off := by
  simp only [playStep]
  rw [if_neg h, hoff]

lemma playFrom_wave_len (fpb : Nat) :
    ∀ (n : Nat) (m : Metro) (out : Nat → ℚ) (i : Nat),
      (playFrom fpb m out i n).1.wave_len = m.wave_len := by
  intro n
  induction n with
  | zero => intro m out i; rfl
  | succ n ih =>
    intro m out i
    simp only [playFrom]
    rw [ih, playStep_wave_len]

lemma playFrom_wave_offset_lt (fpb : Nat) :
    ∀ (n : Nat) (m : Metro) (out : Nat → ℚ) (i : Nat), 0 < m.wave_len →
      m.wave_offset < m.wave_len →
      (playFrom fpb m out i n).1.wave_offset < m.wave_len := by
  intro n
  induction n with
  | zero => intro m out i _ h; exact h
  | succ n ih =>
    intro m out i hw hwo
    simp only [playFrom]
    have h1 : (playStep fpb m).1.wave_len = m.wave_len := playStep_wave_len fpb m
    have h2 : (playStep fpb m).1.wave_offset < (playStep fpb m).1.wave_len := by
      rw [playStep_wave_offset, h1]
      exact Nat.mod_lt _ hw
    have h3 := ih (playStep fpb m).1 (fun j => if j = i then (playStep fpb m).2 else out j)
      (i + 1) (by rw [h1]; exact hw) h2
    rw [h1] at h3
    exact h3

lemma playFrom_elapsed_add (fpb : Nat) :
    ∀ (n : Nat) (m : Metro) (out : Nat → ℚ) (i : Nat), fpb < m.elapsed_len →
      m.elapsed_len + n < 2 ^ 32 →
      (playFrom fpb m out i n).1.elapsed_len = m.elapsed_len + n := by
  intro n
  induction n with
  | zero => intro m out i _ _; rfl
  | succ n ih =>
    intro m out i hgt hn
    have h1 : (m.elapsed_len + 1) % 2 ^ 32 = m.elapsed_len + 1 :=
      Nat.mod_eq_of_lt (by omega)
    have h2 : (m.elapsed_len + 1) % 2 ^ 32 ≠ fpb := by rw [h1]; omega
    have hs : (playStep fpb m).1.elapsed_len = m.elapsed_len + 1 := by
      rw [playStep_elapsed_of_ne fpb m h2, h1]
    simp only [playFrom]
    rw [ih (playStep fpb m).1 _ (i + 1) (by rw [hs]; omega) (by rw [hs]; omega), hs]
    omega

lemma playFrom_reaches_attack (fpb : Nat) (hlt : fpb < 2 ^ 32) :
    ∀ (n : Nat) (m : Metro) (out : Nat → ℚ) (i : Nat), m.state = State.off →
      m.elapsed_len + n = fpb → 0 < n →
      (playFrom fpb m out i n).1.state = State.attack ∧
        (playFrom fpb m out i n).1.elapsed_len = 0 := by
  intro n
  induction n with
  | zero => intro m out i _ _ hn; omega
  | succ n ih =>
    intro m out i hoff hsum _
    rcases Nat.eq_zero_or_pos n with hz | hp
    · subst hz
      have h1 : (m.elapsed_len + 1) % 2 ^ 32 = fpb := by
        rw [Nat.mod_eq_of_lt (by omega)]
        omega
      have hr := playStep_reset fpb m h1
      simp only [playFrom]
      exact ⟨hr.2, hr.1⟩
    · have h1 : (m.elapsed_len + 1) % 2 ^ 32 = m.elapsed_len + 1 :=
        Nat.mod_eq_of_lt (by omega)
      have h2 : (m.elapsed_len + 1) % 2 ^ 32 ≠ fpb := by rw [h1]; omega
      simp only [playFrom]
      exact ih (playStep fpb m).1 _ (i + 1) (playStep_state_off fpb m hoff h2)
        (by rw [playStep_elapsed_of_ne fpb m h2, h1]; omega) hp

lemma playFrom_trace (fpb : Nat) :
    ∀ (n : Nat) (m : Metro) (out : Nat → ℚ) (i : Nat),
      (playFrom fpb m out i n).2.2 = (List.range n).map (i + ·) := by
  intro n
  induction n with
  | zero => intro m out i; rfl
  | succ n ih =>
    intro m out i
    simp only [playFrom, ih, List.range_succ_eq_map, List.map_cons, List.map_map,
      Nat.add_zero]
    congr 1
    exact List.map_congr_left fun j _ => by simp only [Function.comp_apply]; omega

/-- C1 [code bug]: with `speed = 0` the source zeroes the buffer indices
`[0, end - begin)` — counted from the buffer start — instead of
`[begin, end)`: for the slice `[200, 512)` of a buffer prefilled with 1,
index 400 (inside the slice) keeps its stale value 1 while index 0
(outside the slice) is zeroed; the instance state is returned unchanged. -/
theorem play_speed_zero_zeroes_wrong_range :
    (play stopped48k (fun _ => 1) 200 512).2.1 400 = 1 ∧
      (play stopped48k (fun _ => 1) 200 512).2.1 0 = 0 ∧
      (play stopped48k (fun _ => 1) 200 512).1 = stopped48k := by
  refine ⟨?_, ?_, ?_⟩ <;> rfl

/-- C2 [code bug]: with the transport stopped, a block of 4 frames with a
single empty `time:Position` event at frame 2 writes indices 0 and 1 in
both slices and never writes indices 2 and 3; the written-index trace
counts index 0 twice and index 3 never, and output index 3 keeps its
stale prefill value 1. -/
theorem run_speed_zero_slices_miss_samples :
    (run stopped48k (fun _ => 1)
        [{ time := 2, msg := some { beat := none, bpm := none, speed := none } }]
        4).2.2.count 3 = 0 ∧
      (run stopped48k (fun _ => 1)
        [{ time := 2, msg := some { beat := none, bpm := none, speed := none } }]
        4).2.2.count 0 = 2 ∧
      (run stopped48k (fun _ => 1)
        [{ time := 2, msg := some { beat := none, bpm := none, speed := none } }]
        4).2.1 3 = 1 := by
  refine ⟨?_, ?_, ?_⟩ <;> rfl

/-- C3 counterexample: construction does not fail for `sampleRate ≤ 0`:
at sample rate 0, with the URID-map feature present, `instantiate`
returns an instance. -/
theorem instantiate_succeeds_at_rate_zero :
    (instantiate (fun _ => 0) true 0).isSome = true := rfl

/-- C3 (amended): construction never inspects the sample rate: with the
mandatory URID-map feature present (and allocation succeeding, which the
model assumes) it returns an instance for every sample rate, including
nonpositive ones, and it fails exactly when the URID-map feature is
missing. -/
theorem instantiate_ignores_rate (sinq : ℚ → ℚ) (rate : ℚ) :
    instantiate sinq true rate = some (mkMetro sinq rate) ∧
      instantiate sinq false rate = none :=
  ⟨rfl, rfl⟩

/-- C4: for each frame rendered with nonzero transport speed, the output
sample is determined by the current phase (Attack:
`wave[waveOffset] * elapsedFrames / attackLen`; Decay:
`wave[waveOffset] * (1 - (elapsedFrames - attackLen) / decayLen)`;
Off: 0), the wave offset advances by `(waveOffset + 1) % waveformLength`
in every phase, and — apart from the beat-boundary reset, which forces
Attack and takes precedence — the phase becomes Decay once
`elapsedFrames ≥ attackLen` and Off once
`elapsedFrames ≥ attackLen + decayLen`. -/
theorem playStep_phase_rules (fpb : Nat) (m : Metro)
    (he : m.elapsed_len < 2 ^ 32)
    (hd : m.state = State.decay → m.attack_len ≤ m.elapsed_len) :
    (playStep fpb m).2 =
      (match m.state with
       | State.attack =>
           m.wave.getD m.wave_offset 0 * (m.elapsed_len : ℚ) / (m.attack_len : ℚ)
       | State.decay =>
           m.wave.getD m.wave_offset 0 *
             (1 - ((m.elapsed_len : ℚ) - (m.attack_len : ℚ)) / (m.decay_len : ℚ))
       | State.off => 0) ∧
      (playStep fpb m).1.wave_offset = (m.wave_offset + 1) % m.wave_len ∧
      ((m.elapsed_len + 1) % 2 ^ 32 ≠ fpb →
        (playStep fpb m).1.state =
          (match m.state with
           | State.attack =>
               if m.attack_len ≤ m.elapsed_len then State.decay else State.attack
           | State.decay =>
               if m.attack_len + m.decay_len ≤ m.elapsed_len then State.off
               else State.decay
           | State.off => State.off)) := by
  refine ⟨?_, playStep_wave_offset fpb m, ?_⟩
  · cases hst : m.state with
    | attack =>
      simp only [playStep, hst]
      split <;> rfl
    | off =>
      simp only [playStep, hst]
      split <;> rfl
    | decay =>
      have hle := hd hst
      have hmod : (m.elapsed_len + 2 ^ 32 - m.attack_len) % 2 ^ 32
          = m.elapsed_len - m.attack_len := by omega
      have hcast : ((m.elapsed_len - m.attack_len : Nat) : ℚ)
          = (m.elapsed_len : ℚ) - (m.attack_len : ℚ) := Nat.cast_sub hle
      simp only [playStep, hst, hmod, hcast]
      split <;> rfl
  · intro hne
    simp only [playStep]
    rw [if_neg hne]

/-- Witness for C4: the wave-offset advance at a concrete decay-phase
instance, with both hypotheses discharged. -/
theorem playStep_phase_rules_witness :
    (playStep 24000 decay48k).1.wave_offset =
      (decay48k.wave_offset + 1) % decay48k.wave_len :=
  (playStep_phase_rules 24000 decay48k (by decide) (fun _ => by decide)).2.1

lemma framesPerBeat_tiny3 : framesPerBeat tiny3 = 3 := by
  have h : (60 : ℚ) / tiny3.bpm * tiny3.rate = 3 := by norm_num [tiny3]
  have h2 : ⌊(3 : ℚ)⌋ = 3 := by norm_num
  rw [framesPerBeat, h, h2]
  rfl

/-- C5: with nonzero speed, each rendered frame increments `elapsed_len`,
and the step resets it to 0 with the state forced to Attack exactly when
the incremented value equals `frames_per_beat` (computed from the current
bpm as `(60 / bpm) * rate`); consequently, a render call over exactly
`frames_per_beat` frames starting from Off with `elapsed_len = 0` ends
with a fresh Attack at the beat boundary, having written exactly the
requested consecutive frames (no gap, no duplicate). -/
theorem beat_boundary_starts_attack (m : Metro) (out : Nat → ℚ) (b : Nat)
    (hs : m.speed ≠ 0) (hoff : m.state = State.off) (h0 : m.elapsed_len = 0)
    (hpos : 0 < framesPerBeat m) (hlt : framesPerBeat m < 2 ^ 32) :
    ((play m out b (b + framesPerBeat m)).1.state = State.attack ∧
        (play m out b (b + framesPerBeat m)).1.elapsed_len = 0) ∧
      (play m out b (b + framesPerBeat m)).2.2 =
        (List.range (framesPerBeat m)).map (b + ·) ∧
      ∀ (fpb : Nat) (m2 : Metro), (m2.elapsed_len + 1) % 2 ^ 32 = fpb →
        (playStep fpb m2).1.elapsed_len = 0 ∧
          (playStep fpb m2).1.state = State.attack := by
  have hb : b + framesPerBeat m - b = framesPerBeat m := by omega
  have hplay : play m out b (b + framesPerBeat m)
      = playFrom (framesPerBeat m) m out b (framesPerBeat m) := by
    simp only [play, if_neg hs, hb]
  refine ⟨?_, ?_, fun fpb m2 h => playStep_reset fpb m2 h⟩
  · rw [hplay]
    exact playFrom_reaches_attack (framesPerBeat m) hlt (framesPerBeat m) m out b hoff
      (by omega) hpos
  · rw [hplay]
    exact playFrom_trace (framesPerBeat m) (framesPerBeat m) m out b

/-- Witness for C5: rendering one whole beat of the tiny instance from Off
lands on a fresh Attack with the counter reset. -/
theorem beat_boundary_starts_attack_witness :
    (play tiny3 (fun _ => 0) 0 (0 + framesPerBeat tiny3)).1.state = State.attack ∧
      (play tiny3 (fun _ => 0) 0 (0 + framesPerBeat tiny3)).1.elapsed_len = 0 :=
  (beat_boundary_starts_attack tiny3 (fun _ => 0) 0 (by decide) rfl rfl
    (by rw [framesPerBeat_tiny3]; decide) (by rw [framesPerBeat_tiny3]; decide)).1

lemma resync_scenario_elapsed :
    (update_position playing48k beatMsg).elapsed_len = 12000 := by
  show (⌊((3 : ℚ) / 2 - (⌊(3 : ℚ) / 2⌋ : ℚ)) *
      (60 / playing48k.bpm * playing48k.rate)⌋).toNat = 12000
  have hf : ⌊(3 : ℚ) / 2⌋ = 1 := by norm_num [Int.floor_eq_iff]
  rw [hf]
  have hv : ((3 : ℚ) / 2 - ((1 : ℤ) : ℚ)) * (60 / playing48k.bpm * playing48k.rate)
      = 12000 := by norm_num [playing48k]
  rw [hv]
  have h12 : ⌊(12000 : ℚ)⌋ = 12000 := by norm_num
  rw [h12]
  rfl

lemma resync_scenario_state :
    (update_position playing48k beatMsg).state = State.off := by
  have he := resync_scenario_elapsed
  show (if (update_position playing48k beatMsg).elapsed_len < playing48k.attack_len
      then State.attack
      else if (update_position playing48k beatMsg).elapsed_len <
          playing48k.attack_len + playing48k.decay_len
        then State.decay
        else State.off) = State.off
  rw [he]
  decide

/-- C6: `update_position` applies the message fields in the order tempo,
speed, beat position: the resulting bpm and speed are the message values
when present, the wave offset is untouched, and a present beat position
sets `elapsed_len` to the fractional beat times the frames-per-beat
computed from the possibly-just-updated bpm and re-derives the phase from
the new `elapsed_len` (Attack below `attack_len`, Decay below
`attack_len + decay_len`, else Off); in the spec scenario (48 kHz,
120 bpm, beat 1.5, `attack_len = 240`, `decay_len = 3600`) this yields
`elapsed_len = 12000` and phase Off. -/
theorem update_position_field_order (m : Metro) (msg : PosMsg) :
    (update_position m msg).bpm = msg.bpm.getD m.bpm ∧
      (update_position m msg).speed = msg.speed.getD m.speed ∧
      (update_position m msg).wave_offset = m.wave_offset ∧
      (∀ bb : ℚ, msg.beat = some bb →
        (update_position m msg).elapsed_len =
          (⌊(bb - (⌊bb⌋ : ℚ)) * (60 / msg.bpm.getD m.bpm * m.rate)⌋).toNat ∧
        (update_position m msg).state =
          (if (update_position m msg).elapsed_len < m.attack_len then State.attack
           else if (update_position m msg).elapsed_len <
               m.attack_len + m.decay_len
             then State.decay
           else State.off)) ∧
      (update_position playing48k beatMsg).elapsed_len = 12000 ∧
      (update_position playing48k beatMsg).state = State.off := by
  obtain ⟨beat, bpmo, speedo⟩ := msg
  refine ⟨?_, ?_, ?_, ?_, resync_scenario_elapsed, resync_scenario_state⟩
  · cases beat <;> cases bpmo <;> cases speedo <;> rfl
  · cases beat <;> cases bpmo <;> cases speedo <;> rfl
  · cases beat <;> cases bpmo <;> cases speedo <;> rfl
  · intro bb h
    cases beat with
    | none => exact nomatch h
    | some bb0 =>
      have hbb : bb0 = bb := by simpa using h
      subst hbb
      cases bpmo <;> cases speedo <;> exact ⟨rfl, rfl⟩

/-- Witness for C6: the resync formula instantiated at the spec scenario,
with the beat-present hypothesis discharged. -/
theorem update_position_field_order_witness :
    (update_position playing48k beatMsg).elapsed_len =
      (⌊((3 : ℚ) / 2 - (⌊(3 : ℚ) / 2⌋ : ℚ)) *
        (60 / beatMsg.bpm.getD playing48k.bpm * playing48k.rate)⌋).toNat :=
  ((update_position_field_order playing48k beatMsg).2.2.2.1 (3 / 2) rfl).1

/-- C7 counterexample: at a 48 kHz sample rate the wave-table length is
the truncation 54 of `48000 / 880`, not the rounding 55 the claim
states. -/
theorem wave_len_not_round_at_48k :
    ((mkMetro (fun _ => 0) 48000).wave_len : ℤ) ≠ round ((48000 : ℚ) / (440 * 2)) := by
  have h1 : (mkMetro (fun _ => 0) 48000).wave_len = 54 := by
    show (⌊(48000 : ℚ) / (440 * 2)⌋).toNat = 54
    have h : ⌊(48000 : ℚ) / (440 * 2)⌋ = 54 := by norm_num [Int.floor_eq_iff]
    rw [h]
    rfl
  have h2 : round ((48000 : ℚ) / (440 * 2)) = 55 := by
    rw [round_eq]
    norm_num [Int.floor_eq_iff]
  rw [h1, h2]
  decide

/-- C7 (amended): the wave table built at construction has length
`⌊sampleRate / 880⌋` (truncation, with the fixed tone frequency
880 = 440·2): for every positive sample rate the length is the integer
just below `sampleRate / 880`, and the stored table holds exactly
`wave_len` samples. -/
theorem wave_len_is_truncation (sinq : ℚ → ℚ) (rate : ℚ) (h : 0 < rate) :
    ((mkMetro sinq rate).wave_len : ℚ) ≤ rate / (440 * 2) ∧
      rate / (440 * 2) < (mkMetro sinq rate).wave_len + 1 ∧
      (mkMetro sinq rate).wave.length = (mkMetro sinq rate).wave_len := by
  have hx : (0 : ℚ) ≤ rate / (440 * 2) := by positivity
  have hf : (0 : ℤ) ≤ ⌊rate / (440 * 2)⌋ := Int.floor_nonneg.mpr hx
  have hz : (((⌊rate / (440 * 2)⌋).toNat : ℕ) : ℚ) = ((⌊rate / (440 * 2)⌋ : ℤ) : ℚ) := by
    rw [← Int.cast_natCast, Int.toNat_of_nonneg hf]
  refine ⟨?_, ?_, ?_⟩
  · show (((⌊rate / (440 * 2)⌋).toNat : ℕ) : ℚ) ≤ rate / (440 * 2)
    rw [hz]
    exact Int.floor_le (rate / (440 * 2))
  · show rate / (440 * 2) < (((⌊rate / (440 * 2)⌋).toNat : ℕ) : ℚ) + 1
    rw [hz]
    exact Int.lt_floor_add_one (rate / (440 * 2))
  · show ((List.range ((⌊rate / (440 * 2)⌋).toNat)).map
        (fun (i : ℕ) => sinq ((i : ℚ) * 2 * m_pi * (440 * 2) / rate) * (1 / 2))).length
      = (⌊rate / (440 * 2)⌋).toNat
    rw [List.length_map, List.length_range]

/-- Witness for C7 at a 48 kHz sample rate. -/
theorem wave_len_is_truncation_witness :
    ((mkMetro (fun _ => 0) 48000).wave_len : ℚ) ≤ 48000 / (440 * 2) :=
  (wave_len_is_truncation (fun _ => 0) 48000 (by norm_num)).1

/-- C8: applying the same position message twice in immediate succession
(no rendering in between) leaves the instance in exactly the state that a
single application produces — `update_position` is idempotent. -/
theorem update_position_idempotent (m : Metro) (msg : PosMsg) :
    update_position (update_position m msg) msg = update_position m msg := by
  obtain ⟨beat, bpmo, speedo⟩ := msg
  cases beat <;> cases bpmo <;> cases speedo <;> rfl

lemma update_position_wave_offset (m : Metro) (msg : PosMsg) :
    (update_position m msg).wave_offset = m.wave_offset := by
  obtain ⟨beat, bpmo, speedo⟩ := msg
  cases beat <;> cases bpmo <;> cases speedo <;> rfl

lemma update_position_wave_len (m : Metro) (msg : PosMsg) :
    (update_position m msg).wave_len = m.wave_len := by
  obtain ⟨beat, bpmo, speedo⟩ := msg
  cases beat <;> cases bpmo <;> cases speedo <;> rfl

/-- C9: every operation — `activate`, `update_position` with any message,
`play` over any range at any speed — preserves the invariant
`wave_offset ∈ [0, wave_len)` (given a nonempty wave table). -/
theorem wave_offset_stays_in_range (m : Metro) (hw : 0 < m.wave_len)
    (hwo : m.wave_offset < m.wave_len) :
    (activate m).wave_offset < (activate m).wave_len ∧
      (∀ msg : PosMsg,
        (update_position m msg).wave_offset < (update_position m msg).wave_len) ∧
      ∀ (out : Nat → ℚ) (b e : Nat),
        (play m out b e).1.wave_offset < (play m out b e).1.wave_len := by
  refine ⟨hw, ?_, ?_⟩
  · intro msg
    rw [update_position_wave_offset, update_position_wave_len]
    exact hwo
  · intro out b e
    by_cases hs : m.speed = 0
    · simp only [play, if_pos hs]
      exact hwo
    · simp only [play, if_neg hs]
      rw [playFrom_wave_len]
      exact playFrom_wave_offset_lt (framesPerBeat m) (e - b) m out b hw hwo

/-- Witness for C9 on a concrete instance. -/
theorem wave_offset_stays_in_range_witness :
    (activate tiny3).wave_offset < (activate tiny3).wave_len :=
  (wave_offset_stays_in_range tiny3 (by decide) (by decide)).1

/-- C10: if `elapsed_len` is already strictly past `frames_per_beat` when
rendering proceeds with nonzero speed, the equality-only beat-boundary
check never fires: over any number of frames (short of `uint32_t`
overflow) `elapsed_len` just keeps incrementing, and the step at
`elapsed_len = 2 ^ 32 - 1` wraps it around to 0 modulo `2 ^ 32`. -/
theorem stale_elapsed_never_resets (m : Metro) (out : Nat → ℚ) (b n : Nat)
    (hs : m.speed ≠ 0) (hgt : framesPerBeat m < m.elapsed_len)
    (hn : m.elapsed_len + n < 2 ^ 32) :
    (play m out b (b + n)).1.elapsed_len = m.elapsed_len + n ∧
      ∀ (fpb : Nat) (m2 : Metro), m2.elapsed_len = 2 ^ 32 - 1 → fpb ≠ 0 →
        (playStep fpb m2).1.elapsed_len = 0 := by
  constructor
  · have hb : b + n - b = n := by omega
    simp only [play, if_neg hs, hb]
    exact playFrom_elapsed_add (framesPerBeat m) n m out b hgt hn
  · intro fpb m2 h2 hf
    have he : (m2.elapsed_len + 1) % 2 ^ 32 = 0 := by
      rw [h2]
      decide
    simp only [playStep, he]
    split <;> rfl

lemma framesPerBeat_tiny3Late : framesPerBeat tiny3Late = 3 :=
  framesPerBeat_tiny3

/-- Witness for C10: five frames rendered with `elapsed_len = 10` already
past the `frames_per_beat` of 3 leave the counter at 15. -/
theorem stale_elapsed_never_resets_witness :
    (play tiny3Late (fun _ => 0) 0 (0 + 5)).1.elapsed_len = tiny3Late.elapsed_len + 5 :=
  (stale_elapsed_never_resets tiny3Late (fun _ => 0) 0 5 (by decide)
    (by rw [framesPerBeat_tiny3Late]; decide) (by decide)).1
